import Mathlib

/-!
Verification of the in-memory distributed task queue (`QueueManager` in
`src/queue/QueueManager.ts`, configuration in `src/config.ts`).

The embedding is a direct shallow translation of the TypeScript class:
* JS `Map`s become association lists (`amGet`/`amSet`/`amErase`);
* JS arrays used as queues (`unshift` at the front, `pop` at the back)
  become `List Nat` with `cons` and `popBack`;
* JS numbers holding counters/timestamps become `Int`
  (`activeWorkers` can go negative), the running average becomes `ℚ`
  (exact-arithmetic model of the float);
* `uuidv4()` becomes a fresh-id counter (`nextId`) — only uniqueness of
  ids is ever used by the code;
* `Date.now()` becomes an explicit `now : Int` argument to each operation;
* `setTimeout(cb, delay)` in `failTask` becomes a `RetryTimer` record
  appended to a pending-timer list; a separate `fireTimer` operation runs
  the callback body.  Timers are never cancelled anywhere in the source,
  in particular not by `clearAll`;
* `this.emit('queue:event', ...)` becomes appending a `QueueEvent` to an
  event log.
JS falsy-or defaults (`x || d`) are modelled by `jsOr*` helpers that map
`0` / the empty string / `undefined` (`none`) to the default, exactly as
`||` does on these values.
-/

namespace DTQ

inductive Priority
  | high
  | normal
  | low
deriving DecidableEq

inductive Status
  | pending
  | processing
  | completed
  | failed
  | retrying
deriving DecidableEq

inductive WorkerStatus
  | idle
  | busy
deriving DecidableEq

/-- `config.worker.maxRetries` (src/config.ts line 25): documented default 3. -/
def configWorkerMaxRetries : Nat := 3

/-- `config.worker.retryDelay` (src/config.ts line 26): documented default 1000 ms. -/
def configWorkerRetryDelay : Int := 1000

/-- JS `o || d` on an optional string: `undefined` and `""` are falsy. -/
def jsOrStr (o : Option String) (d : String) : String :=
  match o with
  | some s => if s = "" then d else s
  | none => d

/-- JS `o || d` on an optional number: `undefined` and `0` are falsy. -/
def jsOrNat (o : Option Nat) (d : Nat) : Nat :=
  match o with
  | some n => if n = 0 then d else n
  | none => d

/-- JS `o || d` on an optional integer (used for `task.startedAt || task.createdAt`). -/
def jsOrInt (o : Option Int) (d : Int) : Int :=
  match o with
  | some x => if x = 0 then d else x
  | none => d

/-- The `Task` record of src/types.ts (payload kept as an opaque string). -/
structure Task where
  id : Nat
  type : String
  payload : String
  priority : Priority
  status : Status
  retries : Nat
  maxRetries : Nat
  createdAt : Int
  updatedAt : Int
  startedAt : Option Int := none
  completedAt : Option Int := none
  failedAt : Option Int := none
  workerId : Option String := none
  lastError : Option String := none
  nextRetryAt : Option Int := none
  result : Option String := none
deriving DecidableEq

/-- The `TaskCreateRequest` record of src/types.ts. -/
structure TaskCreateRequest where
  type : Option String := none
  payload : Option String := none
  maxRetries : Option Nat := none
deriving DecidableEq

/-- The `Worker` record of src/types.ts.  (`registerWorker`'s `Partial<Worker>`
spread only overrides record fields such as `pid`; no claim reads them, and it
never touches queue or stats state, so the spread argument is not modelled.) -/
structure WorkerRec where
  id : String
  status : WorkerStatus
  tasksProcessed : Nat
  currentTask : String := ""
  startedAt : Int
  lastHeartbeat : Int
deriving DecidableEq

/-- The `QueueStats` record of src/types.ts.  Counters are `Int` (JS numbers
that the code decrements unconditionally), the running average is an exact
rational. -/
structure QueueStats where
  tasksCreated : Int
  pendingTasks : Int
  processingTasks : Int
  completedTasks : Int
  failedTasks : Int
  retriedTasks : Int
  avgProcessingTime : ℚ
  activeWorkers : Int
  queueLengthsHigh : Int
  queueLengthsNormal : Int
  queueLengthsLow : Int
  processingCount : Int
deriving DecidableEq

/-- One event on the `queue:event` stream, with the payload fields the
source puts into each `emitEvent` call. -/
inductive QueueEvent
  | taskCreated (id : Nat) (type : String) (priority : Priority)
  | taskProcessing (id : Nat) (workerId : String) (type : String)
  | taskCompleted (id : Nat) (type : String) (processingTime : Int)
  | taskFailed (id : Nat) (type : String) (error : String)
  | taskRetrying (id : Nat) (retries : Nat) (maxRetries : Nat)
  | workerRegistered (id : String)
  | workerUnregistered (id : String)
deriving DecidableEq

/-- A pending `setTimeout` callback scheduled by `failTask`.  The closure
captures the task id and (via the task object, whose `priority` field is
never mutated) the lane to re-insert into; `delay`/`firesAt` record the
computed backoff. -/
structure RetryTimer where
  taskId : Nat
  priority : Priority
  delay : Int
  firesAt : Int
deriving DecidableEq

/-- The three priority lanes (`this.queues`).  JS arrays used with
`unshift` (insert at index 0) and `pop` (remove the last element). -/
structure Lanes where
  high : List Nat
  normal : List Nat
  low : List Nat
deriving DecidableEq

def Lanes.lane (q : Lanes) : Priority → List Nat
  | .high => q.high
  | .normal => q.normal
  | .low => q.low

def Lanes.setLane (q : Lanes) : Priority → List Nat → Lanes
  | .high, l => { q with high := l }
  | .normal, l => { q with normal := l }
  | .low, l => { q with low := l }

/-- Association-list lookup (JS `Map.get`). -/
def amGet {κ α : Type} [DecidableEq κ] : List (κ × α) → κ → Option α
  | [], _ => none
  | (k', v) :: t, k => if k' = k then some v else amGet t k

/-- Association-list insert/overwrite (JS `Map.set`). -/
def amSet {κ α : Type} [DecidableEq κ] : List (κ × α) → κ → α → List (κ × α)
  | [], k, v => [(k, v)]
  | (k', v') :: t, k, v => if k' = k then (k, v) :: t else (k', v') :: amSet t k v

/-- Association-list removal (JS `Map.delete`). -/
def amErase {κ α : Type} [DecidableEq κ] (m : List (κ × α)) (k : κ) : List (κ × α) :=
  m.filter (fun p => p.1 ≠ k)

/-- `Array.prototype.pop`: removes and returns the last element. -/
def popBack (l : List Nat) : Option (Nat × List Nat) :=
  match l.reverse with
  | [] => none
  | x :: rest => some (x, rest.reverse)

/-- Remove the first occurrence of `y` (the `indexOf`/`splice` idiom used on
`this.processing`; a miss, `indexOf = -1`, removes nothing). -/
def removeFirst : List Nat → Nat → List Nat
  | [], _ => []
  | x :: t, y => if x = y then t else x :: removeFirst t y

/-- The full mutable state of a `QueueManager` instance, together with the
pending-timer queue of the event loop and the emitted event stream. -/
structure QMState where
  queues : Lanes
  processing : List Nat
  tasks : List (Nat × Task)
  results : List (Nat × String)
  workers : List (String × WorkerRec)
  stats : QueueStats
  timers : List RetryTimer
  events : List QueueEvent
  nextId : Nat
deriving DecidableEq

/-- The constructor state of `QueueManager`. -/
def initState : QMState where
  queues := ⟨[], [], []⟩
  processing := []
  tasks := []
  results := []
  workers := []
  stats := ⟨0, 0, 0, 0, 0, 0, 0, 0, 0, 0, 0, 0⟩
  timers := []
  events := []
  nextId := 0

/-- `QueueManager.addTask` (part_002 lines 54-76). -/
def addTask (taskData : TaskCreateRequest) (priority : Priority) (now : Int)
    (s : QMState) : Task × QMState :=
  let taskId := s.nextId
  let task : Task :=
    { id := taskId
      type := jsOrStr taskData.type "default"
      payload := jsOrStr taskData.payload "{}"
      priority := priority
      status := .pending
      retries := 0
      maxRetries := jsOrNat taskData.maxRetries configWorkerMaxRetries
      createdAt := now
      updatedAt := now }
  (task,
    { s with
        tasks := amSet s.tasks taskId task
        queues := s.queues.setLane priority (taskId :: s.queues.lane priority)
        stats := { s.stats with
                     tasksCreated := s.stats.tasksCreated + 1
                     pendingTasks := s.stats.pendingTasks + 1 }
        events := s.events ++ [.taskCreated taskId task.type priority]
        nextId := s.nextId + 1 })

/-- The scan loop of `QueueManager.getNextTask` (part_002 lines 81-102):
for each priority in order, if the lane is non-empty pop its last element
(the `if (!taskId) continue` branch is dead code: `pop` on a non-empty array
always yields a value); if the popped id has no task record the loop falls
through to the next priority with the id already removed. -/
def getNextTaskAux (workerId : String) (now : Int) :
    List Priority → QMState → Option Task × QMState
  | [], s => (none, s)
  | p :: rest, s =>
    match popBack (s.queues.lane p) with
    | none => getNextTaskAux workerId now rest s
    | some (taskId, lane') =>
      let s1 := { s with queues := s.queues.setLane p lane' }
      match amGet s1.tasks taskId with
      | none => getNextTaskAux workerId now rest s1
      | some task =>
        let task1 := { task with
                         status := .processing
                         workerId := some workerId
                         startedAt := some now
                         updatedAt := now }
        (some task1,
          { s1 with
              tasks := amSet s1.tasks taskId task1
              processing := s1.processing ++ [taskId]
              stats := { s1.stats with
                           pendingTasks := s1.stats.pendingTasks - 1
                           processingTasks := s1.stats.processingTasks + 1 }
              events := s1.events ++ [.taskProcessing taskId workerId task.type] })

/-- `QueueManager.getNextTask` (part_002 lines 78-105). -/
def getNextTask (workerId : String) (now : Int) (s : QMState) : Option Task × QMState :=
  getNextTaskAux workerId now [.high, .normal, .low] s

/-- `QueueManager.updateAverageProcessingTime` (part_002 lines 234-238).
`completedTasks || 1` and `avgProcessingTime || 0` are the JS falsy-or. -/
def updateAverageProcessingTime (st : QueueStats) (newTime : Int) : QueueStats :=
  let completed : Int := if st.completedTasks = 0 then 1 else st.completedTasks
  let currentAvg : ℚ := if st.avgProcessingTime = 0 then 0 else st.avgProcessingTime
  { st with avgProcessingTime :=
      (currentAvg * ((completed : ℚ) - 1) + (newTime : ℚ)) / (completed : ℚ) }

/-- `QueueManager.completeTask` (part_002 lines 107-129). -/
def completeTask (taskId : Nat) (result : String) (now : Int) (s : QMState) :
    Bool × QMState :=
  match amGet s.tasks taskId with
  | none => (false, s)
  | some task =>
    let task1 := { task with status := .completed, completedAt := some now, updatedAt := now }
    let processingTime : Int := now - jsOrInt task1.startedAt task1.createdAt
    let stats1 := { s.stats with
                      processingTasks := s.stats.processingTasks - 1
                      completedTasks := s.stats.completedTasks + 1 }
    (true,
      { s with
          tasks := amSet s.tasks taskId task1
          results := amSet s.results taskId result
          processing := removeFirst s.processing taskId
          stats := updateAverageProcessingTime stats1 processingTime
          events := s.events ++ [.taskCompleted taskId task.type processingTime] })

/-- `QueueManager.failTask` (part_002 lines 131-168).  The retry branch
schedules the re-enqueue callback as a `RetryTimer` instead of mutating the
lane immediately. -/
def failTask (taskId : Nat) (errorMsg : String) (now : Int) (s : QMState) :
    Bool × QMState :=
  match amGet s.tasks taskId with
  | none => (false, s)
  | some task =>
    let processing1 := removeFirst s.processing taskId
    let stats1 := { s.stats with processingTasks := s.stats.processingTasks - 1 }
    if task.retries < task.maxRetries then
      let retryDelay := configWorkerRetryDelay * 2 ^ task.retries
      let task1 := { task with
                       status := .retrying
                       retries := task.retries + 1
                       lastError := some errorMsg
                       nextRetryAt := some (now + retryDelay)
                       updatedAt := now }
      (true,
        { s with
            tasks := amSet s.tasks taskId task1
            processing := processing1
            stats := stats1
            timers := s.timers ++
              [{ taskId := taskId, priority := task.priority,
                 delay := retryDelay, firesAt := now + retryDelay }] })
    else
      let task1 := { task with
                       status := .failed
                       failedAt := some now
                       lastError := some errorMsg
                       updatedAt := now }
      (true,
        { s with
            tasks := amSet s.tasks taskId task1
            processing := processing1
            stats := { stats1 with failedTasks := stats1.failedTasks + 1 }
            events := s.events ++ [.taskFailed taskId task.type errorMsg] })

/-- Running the `setTimeout` callback of `failTask` (part_002 lines 147-155)
for the `i`-th pending timer: `unshift` the id into the lane the closure's
task object names, set the (still shared, if still stored) task object back
to `pending`, bump pending/retried counters, emit `task:retrying`.  After a
`clearAll` the closure's task object is no longer in the store, so its
mutation — and the `retries`/`maxRetries` the event payload reads from it —
are modelled from the store when present. -/
def fireTimer (i : Nat) (now : Int) (s : QMState) : QMState :=
  match s.timers.get? i with
  | none => s
  | some tm =>
    let s1 := { s with timers := s.timers.eraseIdx i }
    let queues1 := s1.queues.setLane tm.priority (tm.taskId :: s1.queues.lane tm.priority)
    let tasks1 :=
      match amGet s1.tasks tm.taskId with
      | some task => amSet s1.tasks tm.taskId { task with status := .pending, updatedAt := now }
      | none => s1.tasks
    let ev :=
      match amGet s1.tasks tm.taskId with
      | some task => QueueEvent.taskRetrying tm.taskId task.retries task.maxRetries
      | none => QueueEvent.taskRetrying tm.taskId 0 0
    { s1 with
        queues := queues1
        tasks := tasks1
        stats := { s1.stats with
                     pendingTasks := s1.stats.pendingTasks + 1
                     retriedTasks := s1.stats.retriedTasks + 1 }
        events := s1.events ++ [ev] }

/-- `QueueManager.getTaskStatus` (part_002 lines 170-180). -/
def getTaskStatus (taskId : Nat) (s : QMState) : Option Task :=
  match amGet s.tasks taskId with
  | none => none
  | some task =>
    if task.status = .completed then
      some { task with result := amGet s.results taskId }
    else
      some task

/-- `QueueManager.getQueueStats` (part_002 lines 182-192): the stored stats
with live lane lengths and in-flight count merged in. -/
def getQueueStats (s : QMState) : QueueStats :=
  { s.stats with
      queueLengthsHigh := (s.queues.high.length : Int)
      queueLengthsNormal := (s.queues.normal.length : Int)
      queueLengthsLow := (s.queues.low.length : Int)
      processingCount := (s.processing.length : Int) }

/-- `QueueManager.registerWorker` (part_002 lines 194-206). -/
def registerWorker (workerId : String) (now : Int) (s : QMState) : QMState :=
  { s with
      workers := amSet s.workers workerId
        { id := workerId, status := .idle, tasksProcessed := 0,
          startedAt := now, lastHeartbeat := now }
      stats := { s.stats with activeWorkers := s.stats.activeWorkers + 1 }
      events := s.events ++ [.workerRegistered workerId] }

/-- `QueueManager.updateWorkerHeartbeat` (part_002 lines 208-215). -/
def updateWorkerHeartbeat (workerId : String) (status : WorkerStatus)
    (currentTask : Option String) (now : Int) (s : QMState) : QMState :=
  match amGet s.workers workerId with
  | none => s
  | some w =>
    let w1 := { w with status := status, currentTask := jsOrStr currentTask "",
                       lastHeartbeat := now }
    { s with workers := amSet s.workers workerId w1 }

/-- `QueueManager.incrementWorkerTaskCount` (part_002 lines 217-222). -/
def incrementWorkerTaskCount (workerId : String) (s : QMState) : QMState :=
  match amGet s.workers workerId with
  | none => s
  | some w =>
    let w1 := { w with tasksProcessed := w.tasksProcessed + 1 }
    { s with workers := amSet s.workers workerId w1 }

/-- `QueueManager.unregisterWorker` (part_002 lines 224-228): deletes the map
entry (a no-op on an unknown id) but decrements the counter and emits the
event unconditionally. -/
def unregisterWorker (workerId : String) (s : QMState) : QMState :=
  { s with
      workers := amErase s.workers workerId
      stats := { s.stats with activeWorkers := s.stats.activeWorkers - 1 }
      events := s.events ++ [.workerUnregistered workerId] }

/-- `QueueManager.clearAll` (part_002 lines 244-261).  Resets queues, the
in-flight list, both stores and the stats record (`activeWorkers` is set to
`this.workers.size`).  Pending retry timers are untouched: nothing in the
source holds or clears the `setTimeout` handles. -/
def clearAll (s : QMState) : QMState :=
  { s with
      queues := ⟨[], [], []⟩
      processing := []
      tasks := []
      results := []
      stats := ⟨0, 0, 0, 0, 0, 0, 0, (s.workers.length : Int), 0, 0, 0, 0⟩ }

/-- One call into the `QueueManager` API, or the event loop firing a pending
retry timer.  `clearAll` is deliberately not in this alphabet: the trace
claims below quantify over operation sequences containing no clear. -/
inductive Op
  | submit (req : TaskCreateRequest) (priority : Priority) (now : Int)
  | fetch (workerId : String) (now : Int)
  | complete (taskId : Nat) (result : String) (now : Int)
  | fail (taskId : Nat) (errorMsg : String) (now : Int)
  | fire (i : Nat) (now : Int)
  | register (workerId : String) (now : Int)
  | heartbeat (workerId : String) (status : WorkerStatus) (currentTask : Option String) (now : Int)
  | incrementCount (workerId : String)
  | unregister (workerId : String)

/-- The state transformer of one operation (returned values discarded). -/
def applyOp (o : Op) (s : QMState) : QMState :=
  match o with
  | .submit req p now => (addTask req p now s).2
  | .fetch w now => (getNextTask w now s).2
  | .complete id r now => (completeTask id r now s).2
  | .fail id e now => (failTask id e now s).2
  | .fire i now => fireTimer i now s
  | .register w now => registerWorker w now s
  | .heartbeat w st ct now => updateWorkerHeartbeat w st ct now s
  | .incrementCount w => incrementWorkerTaskCount w s
  | .unregister w => unregisterWorker w s

/-- States reachable from the constructor state by clear-free operation
sequences. -/
inductive Reachable : QMState → Prop
  | init : Reachable initState
  | step (o : Op) {s : QMState} : Reachable s → Reachable (applyOp o s)

/-- The lane read oldest-first: the spec's FIFO view of a lane.  The code
inserts with `unshift` (front) and removes with `pop` (back), so the spec
order is the reverse of the stored array. -/
def abstractLane (s : QMState) (p : Priority) : List Nat :=
  (s.queues.lane p).reverse

/-- Modelled from the spec: "scans lanes in strict priority order (high,
then normal, then low); within a lane returns the oldest pending id (FIFO)".
This is the specification-side description of `FetchNext`, to be compared
with `getNextTask`. -/
def fetchNextSpec (s : QMState) : Option (Priority × Nat) :=
  match abstractLane s .high with
  | id :: _ => some (.high, id)
  | [] =>
    match abstractLane s .normal with
    | id :: _ => some (.normal, id)
    | [] =>
      match abstractLane s .low with
      | id :: _ => some (.low, id)
      | [] => none

/-- The durations carried by the `task:completed` events of a log, in order. -/
def completedDurations (evs : List QueueEvent) : List Int :=
  evs.filterMap fun e =>
    match e with
    | .taskCompleted _ _ d => some d
    | _ => none

/-- `pendingTasks + processingTasks + completedTasks + failedTasks`. -/
def pendingSum (st : QueueStats) : Int :=
  st.pendingTasks + st.processingTasks + st.completedTasks + st.failedTasks

/-- Sum of a list of integer durations, as a rational. -/
def sumQ (l : List Int) : ℚ :=
  (l.map (fun d => (d : ℚ))).sum

/-- The inductive invariant of clear-free executions: counter bookkeeping
(every created task is counted in exactly one of the four stats buckets or
is waiting on a pending retry timer), the running-average bookkeeping, and
well-formedness of the id references held by lanes and timers. -/
structure Inv (s : QMState) : Prop where
  count_eq : pendingSum s.stats + (s.timers.length : Int) = s.stats.tasksCreated
  completed_eq : s.stats.completedTasks = ((completedDurations s.events).length : Int)
  avg_eq : s.stats.avgProcessingTime * ((completedDurations s.events).length : ℚ) =
      sumQ (completedDurations s.events)
  store_id : ∀ k t, amGet s.tasks k = some t → t.id = k
  fresh : ∀ k t, amGet s.tasks k = some t → k < s.nextId
  lane_ok : ∀ p, ∀ id ∈ s.queues.lane p, ∃ t, amGet s.tasks id = some t ∧ t.priority = p
  timer_ok : ∀ tm ∈ s.timers, ∃ t, amGet s.tasks tm.taskId = some t ∧ t.priority = tm.priority

/-! Concrete trace states used by counterexamples and witnesses below. -/

/-- A minimal submission request. -/
def reqT : TaskCreateRequest := { type := some "t" }

/-- The first task created from `initState` (id 0). -/
def task0 : Task := (addTask reqT Priority.normal 10 initState).1

/-- One normal-priority task submitted. -/
def s1n : QMState := (addTask reqT Priority.normal 10 initState).2

/-- ... then fetched by worker "w". -/
def s2f : QMState := (getNextTask "w" 20 s1n).2

/-- ... then failed once: it now sits in its retry-delay window. -/
def s3fail : QMState := (failTask 0 "boom" 30 s2f).2

/-- ... then everything is cleared while the retry timer is still pending. -/
def s4clear : QMState := clearAll s3fail

/-- ... then the pending timer fires into the cleared queue. -/
def s5stale : QMState := fireTimer 0 1030 s4clear

/-- Submit/fetch/complete: one completed task with processing time 10. -/
def s3comp : QMState := (completeTask 0 "ok" 30 s2f).2

/-- The same worker id registered twice: the map holds one entry but the
`activeWorkers` counter was incremented twice. -/
def sDoubleReg : QMState := registerWorker "w0" 2 (registerWorker "w0" 1 initState)

section Lemmas

theorem lane_setLane_self (q : Lanes) (p : Priority) (l : List Nat) :
    (q.setLane p l).lane p = l := by
  cases p <;> rfl

theorem lane_setLane_ne (q : Lanes) (p r : Priority) (l : List Nat) (h : r ≠ p) :
    (q.setLane p l).lane r = q.lane r := by
  cases p <;> cases r <;> first | rfl | exact absurd rfl h

theorem amGet_amSet_self {κ α : Type} [DecidableEq κ] (m : List (κ × α)) (k : κ) (v : α) :
    amGet (amSet m k v) k = some v := by
  induction m with
  | nil => simp [amGet, amSet]
  | cons hd tl ih =>
    by_cases h : hd.1 = k
    · simp [amSet, h, amGet]
    · simp [amSet, h, amGet, ih]

theorem amGet_amSet_ne {κ α : Type} [DecidableEq κ] (m : List (κ × α)) (k k' : κ) (v : α)
    (h : k ≠ k') : amGet (amSet m k v) k' = amGet m k' := by
  induction m with
  | nil => simp [amGet, amSet, h]
  | cons hd tl ih =>
    by_cases hk : hd.1 = k
    · simp [amSet, hk, amGet, h]
    · simp [amSet, hk, amGet, ih]

theorem popBack_nil : popBack [] = none := rfl

theorem popBack_eq_none (l : List Nat) : popBack l = none ↔ l = [] := by
  unfold popBack
  constructor
  · intro h
    match hr : l.reverse with
    | [] => simpa using congrArg List.reverse hr
    | x :: rest => rw [hr] at h; exact absurd h (by simp)
  · rintro rfl; rfl

theorem popBack_append (l : List Nat) (x : Nat) : popBack (l ++ [x]) = some (x, l) := by
  unfold popBack
  simp

end Lemmas

section InvLemmas

theorem popBack_eq_some {l : List Nat} {x : Nat} {l' : List Nat}
    (h : popBack l = some (x, l')) : l = l' ++ [x] := by
  unfold popBack at h
  match hr : l.reverse with
  | [] => rw [hr] at h; exact absurd h (by simp)
  | y :: rest =>
    rw [hr] at h
    simp only [Option.some.injEq, Prod.mk.injEq] at h
    obtain ⟨rfl, rfl⟩ := h
    have := congrArg List.reverse hr
    simpa using this

theorem sumQ_append (l1 l2 : List Int) : sumQ (l1 ++ l2) = sumQ l1 + sumQ l2 := by
  simp [sumQ]

theorem sumQ_singleton (d : Int) : sumQ [d] = (d : ℚ) := by
  simp [sumQ]

theorem completedDurations_append (l1 l2 : List QueueEvent) :
    completedDurations (l1 ++ l2) = completedDurations l1 ++ completedDurations l2 := by
  simp [completedDurations, List.filterMap_append]

theorem completedDurations_created (evs : List QueueEvent) (id : Nat) (ty : String) (p : Priority) :
    completedDurations (evs ++ [.taskCreated id ty p]) = completedDurations evs := by
  simp [completedDurations_append, completedDurations]

theorem completedDurations_processing (evs : List QueueEvent) (id : Nat) (w ty : String) :
    completedDurations (evs ++ [.taskProcessing id w ty]) = completedDurations evs := by
  simp [completedDurations_append, completedDurations]

theorem completedDurations_completed (evs : List QueueEvent) (id : Nat) (ty : String) (d : Int) :
    completedDurations (evs ++ [.taskCompleted id ty d]) = completedDurations evs ++ [d] := by
  simp [completedDurations_append, completedDurations]

theorem completedDurations_failed (evs : List QueueEvent) (id : Nat) (ty e : String) :
    completedDurations (evs ++ [.taskFailed id ty e]) = completedDurations evs := by
  simp [completedDurations_append, completedDurations]

theorem completedDurations_retrying (evs : List QueueEvent) (id r m : Nat) :
    completedDurations (evs ++ [.taskRetrying id r m]) = completedDurations evs := by
  simp [completedDurations_append, completedDurations]

theorem completedDurations_workerReg (evs : List QueueEvent) (w : String) :
    completedDurations (evs ++ [.workerRegistered w]) = completedDurations evs := by
  simp [completedDurations_append, completedDurations]

theorem completedDurations_workerUnreg (evs : List QueueEvent) (w : String) :
    completedDurations (evs ++ [.workerUnregistered w]) = completedDurations evs := by
  simp [completedDurations_append, completedDurations]

/-- Updating one task without changing its priority preserves all
priority-tagged lookups. -/
theorem amGet_priority_mono (m : List (Nat × Task)) (k : Nat) (t t' : Task)
    (hk : amGet m k = some t) (hp : t'.priority = t.priority) :
    ∀ id u, amGet m id = some u →
      ∃ u', amGet (amSet m k t') id = some u' ∧ u'.priority = u.priority := by
  intro id u hu
  by_cases h : k = id
  · subst h
    rw [hk] at hu
    exact ⟨t', by rw [amGet_amSet_self], by injection hu with h1; rw [hp, h1]⟩
  · exact ⟨u, by rw [amGet_amSet_ne _ _ _ _ h]; exact hu, rfl⟩

end InvLemmas

section Preservation

theorem amGet_of_fresh {m : List (Nat × Task)} {k : Nat} (v : Task)
    (hfresh : amGet m k = none) :
    ∀ id u, amGet m id = some u → amGet (amSet m k v) id = some u := by
  intro id u hu
  by_cases h : k = id
  · subst h; rw [hfresh] at hu; exact absurd hu (by simp)
  · rw [amGet_amSet_ne _ _ _ _ h]; exact hu

theorem amGet_nextId_none {s : QMState} (h : Inv s) : amGet s.tasks s.nextId = none := by
  match hm : amGet s.tasks s.nextId with
  | none => rfl
  | some t => exact absurd (h.fresh _ _ hm) (lt_irrefl _)

theorem inv_addTask (req : TaskCreateRequest) (p : Priority) (now : Int) {s : QMState}
    (h : Inv s) : Inv ((addTask req p now s).2) := by
  have hnone := amGet_nextId_none h
  constructor
  · have := h.count_eq
    simp only [addTask, pendingSum] at *
    linarith
  · have := h.completed_eq
    simp only [addTask, completedDurations_created]
    exact this
  · have := h.avg_eq
    simp only [addTask, completedDurations_created]
    exact this
  · intro k t hk
    simp only [addTask] at hk
    by_cases hkn : s.nextId = k
    · subst hkn; rw [amGet_amSet_self] at hk; injection hk with hk; rw [← hk]
    · rw [amGet_amSet_ne _ _ _ _ hkn] at hk; exact h.store_id k t hk
  · intro k t hk
    simp only [addTask] at hk ⊢
    by_cases hkn : s.nextId = k
    · omega
    · rw [amGet_amSet_ne _ _ _ _ hkn] at hk
      have := h.fresh k t hk
      omega
  · intro q id hid
    simp only [addTask] at hid ⊢
    by_cases hq : q = p
    · subst hq
      rw [lane_setLane_self] at hid
      rcases List.mem_cons.mp hid with rfl | hmem
      · exact ⟨_, amGet_amSet_self _ _ _, rfl⟩
      · obtain ⟨t, ht, hp⟩ := h.lane_ok q id hmem
        exact ⟨t, amGet_of_fresh _ hnone id t ht, hp⟩
    · rw [lane_setLane_ne _ _ _ _ hq] at hid
      obtain ⟨t, ht, hp⟩ := h.lane_ok q id hid
      exact ⟨t, amGet_of_fresh _ hnone id t ht, hp⟩
  · intro tm htm
    simp only [addTask] at htm ⊢
    obtain ⟨t, ht, hp⟩ := h.timer_ok tm htm
    exact ⟨t, amGet_of_fresh _ hnone _ t ht, hp⟩

theorem amGet_amSet_cases {m : List (Nat × Task)} {k : Nat} {v : Task} {k' : Nat} {u : Task}
    (hu : amGet (amSet m k v) k' = some u) : (k = k' ∧ u = v) ∨ amGet m k' = some u := by
  by_cases h : k = k'
  · subst h
    rw [amGet_amSet_self] at hu
    exact Or.inl ⟨rfl, by injection hu with h; exact h.symm⟩
  · rw [amGet_amSet_ne _ _ _ _ h] at hu
    exact Or.inr hu

theorem inv_getNextTaskAux (w : String) (now : Int) (ps : List Priority) {s : QMState}
    (h : Inv s) : Inv (getNextTaskAux w now ps s).2 := by
  induction ps generalizing s with
  | nil => simpa [getNextTaskAux] using h
  | cons p rest ih =>
    rcases hpop : popBack (s.queues.lane p) with _ | ⟨taskId, lane'⟩
    · simpa [getNextTaskAux, hpop] using ih h
    · have hl := popBack_eq_some hpop
      have hmem : taskId ∈ s.queues.lane p := by rw [hl]; simp
      obtain ⟨task, htask, hp⟩ := h.lane_ok p taskId hmem
      simp only [getNextTaskAux, hpop, htask]
      constructor
      · have := h.count_eq
        simp only [pendingSum] at *
        linarith
      · have := h.completed_eq
        simpa [completedDurations_processing] using this
      · have := h.avg_eq
        simpa [completedDurations_processing] using this
      · intro k t hk
        rcases amGet_amSet_cases hk with ⟨rfl, rfl⟩ | hold
        · have := h.store_id taskId task htask
          simpa using this
        · exact h.store_id k t hold
      · intro k t hk
        rcases amGet_amSet_cases hk with ⟨rfl, rfl⟩ | hold
        · exact h.fresh taskId task htask
        · exact h.fresh k t hold
      · intro q id hid
        simp only at hid
        have hid' : id ∈ s.queues.lane q ∨ (q = p ∧ id ∈ lane') := by
          by_cases hq : q = p
          · subst hq
            rw [lane_setLane_self] at hid
            exact Or.inr ⟨rfl, hid⟩
          · rw [lane_setLane_ne _ _ _ _ hq] at hid
            exact Or.inl hid
        have hidmem : id ∈ s.queues.lane q := by
          rcases hid' with hm | ⟨rfl, hm⟩
          · exact hm
          · rw [hl]; exact List.mem_append_left _ hm
        obtain ⟨t, ht, htp⟩ := h.lane_ok q id hidmem
        obtain ⟨t', h1, h2⟩ := amGet_priority_mono s.tasks taskId task
          ({ task with
              status := Status.processing
              workerId := some w
              startedAt := some now
              updatedAt := now }) htask rfl id t ht
        exact ⟨t', h1, h2.trans htp⟩
      · intro tm htm
        simp only at htm
        obtain ⟨t, ht, htp⟩ := h.timer_ok tm htm
        obtain ⟨t', h1, h2⟩ := amGet_priority_mono s.tasks taskId task
          ({ task with
              status := Status.processing
              workerId := some w
              startedAt := some now
              updatedAt := now }) htask rfl _ t ht
        exact ⟨t', h1, h2.trans htp⟩

theorem inv_completeTask (taskId : Nat) (r : String) (now : Int) {s : QMState}
    (h : Inv s) : Inv ((completeTask taskId r now s).2) := by
  rcases htask : amGet s.tasks taskId with _ | task
  · simpa [completeTask, htask] using h
  · simp only [completeTask, htask]
    constructor
    · have := h.count_eq
      simp only [pendingSum, updateAverageProcessingTime] at *
      linarith
    · have := h.completed_eq
      simp only [updateAverageProcessingTime, completedDurations_completed,
        List.length_append, List.length_singleton]
      push_cast
      omega
    · have ha := h.avg_eq
      have hn := h.completed_eq
      simp only [updateAverageProcessingTime, completedDurations_completed,
        List.length_append, List.length_singleton, sumQ_append, sumQ_singleton]
      have hne : ¬ (s.stats.completedTasks + 1 = 0) := by omega
      rw [if_neg hne]
      have hca : (if s.stats.avgProcessingTime = 0 then (0:ℚ) else s.stats.avgProcessingTime)
          = s.stats.avgProcessingTime := by
        split <;> simp [*]
      rw [hca, hn]
      push_cast
      have hne2 : ((completedDurations s.events).length : ℚ) + 1 ≠ 0 := by positivity
      rw [show ((completedDurations s.events).length : ℚ) + 1 - 1
            = ((completedDurations s.events).length : ℚ) by ring]
      rw [div_mul_cancel₀ _ hne2, ha]
    · intro k t hk
      rcases amGet_amSet_cases hk with ⟨rfl, rfl⟩ | hold
      · have := h.store_id taskId task htask
        simpa using this
      · exact h.store_id k t hold
    · intro k t hk
      rcases amGet_amSet_cases hk with ⟨rfl, rfl⟩ | hold
      · exact h.fresh taskId task htask
      · exact h.fresh k t hold
    · intro q id hid
      simp only at hid
      obtain ⟨t, ht, htp⟩ := h.lane_ok q id hid
      obtain ⟨t', h1, h2⟩ := amGet_priority_mono s.tasks taskId task
        ({ task with
            status := Status.completed
            completedAt := some now
            updatedAt := now }) htask rfl id t ht
      exact ⟨t', h1, h2.trans htp⟩
    · intro tm htm
      simp only at htm
      obtain ⟨t, ht, htp⟩ := h.timer_ok tm htm
      obtain ⟨t', h1, h2⟩ := amGet_priority_mono s.tasks taskId task
        ({ task with
            status := Status.completed
            completedAt := some now
            updatedAt := now }) htask rfl _ t ht
      exact ⟨t', h1, h2.trans htp⟩

theorem inv_failTask (taskId : Nat) (e : String) (now : Int) {s : QMState}
    (h : Inv s) : Inv ((failTask taskId e now s).2) := by
  rcases htask : amGet s.tasks taskId with _ | task
  · simpa [failTask, htask] using h
  · simp only [failTask, htask]
    by_cases hret : task.retries < task.maxRetries
    · simp only [if_pos hret]
      constructor
      · have := h.count_eq
        simp only [pendingSum, List.length_append, List.length_singleton] at *
        push_cast
        linarith
      · exact h.completed_eq
      · exact h.avg_eq
      · intro k t hk
        rcases amGet_amSet_cases hk with ⟨rfl, rfl⟩ | hold
        · have := h.store_id taskId task htask
          simpa using this
        · exact h.store_id k t hold
      · intro k t hk
        rcases amGet_amSet_cases hk with ⟨rfl, rfl⟩ | hold
        · exact h.fresh taskId task htask
        · exact h.fresh k t hold
      · intro q id hid
        simp only at hid
        obtain ⟨t, ht, htp⟩ := h.lane_ok q id hid
        obtain ⟨t', h1, h2⟩ := amGet_priority_mono s.tasks taskId task
          ({ task with
              status := Status.retrying
              retries := task.retries + 1
              lastError := some e
              nextRetryAt := some (now + configWorkerRetryDelay * 2 ^ task.retries)
              updatedAt := now }) htask rfl id t ht
        exact ⟨t', h1, h2.trans htp⟩
      · intro tm htm
        simp only at htm
        rcases List.mem_append.mp htm with hold | hnew
        · obtain ⟨t, ht, htp⟩ := h.timer_ok tm hold
          obtain ⟨t', h1, h2⟩ := amGet_priority_mono s.tasks taskId task
            ({ task with
                status := Status.retrying
                retries := task.retries + 1
                lastError := some e
                nextRetryAt := some (now + configWorkerRetryDelay * 2 ^ task.retries)
                updatedAt := now }) htask rfl _ t ht
          exact ⟨t', h1, h2.trans htp⟩
        · have htm2 := List.mem_singleton.mp hnew
          subst htm2
          exact ⟨_, amGet_amSet_self _ _ _, rfl⟩
    · simp only [if_neg hret]
      constructor
      · have := h.count_eq
        simp only [pendingSum] at *
        linarith
      · have := h.completed_eq
        simpa [completedDurations_failed] using this
      · have := h.avg_eq
        simpa [completedDurations_failed] using this
      · intro k t hk
        rcases amGet_amSet_cases hk with ⟨rfl, rfl⟩ | hold
        · have := h.store_id taskId task htask
          simpa using this
        · exact h.store_id k t hold
      · intro k t hk
        rcases amGet_amSet_cases hk with ⟨rfl, rfl⟩ | hold
        · exact h.fresh taskId task htask
        · exact h.fresh k t hold
      · intro q id hid
        simp only at hid
        obtain ⟨t, ht, htp⟩ := h.lane_ok q id hid
        obtain ⟨t', h1, h2⟩ := amGet_priority_mono s.tasks taskId task
          ({ task with
              status := Status.failed
              failedAt := some now
              lastError := some e
              updatedAt := now }) htask rfl id t ht
        exact ⟨t', h1, h2.trans htp⟩
      · intro tm htm
        simp only at htm
        obtain ⟨t, ht, htp⟩ := h.timer_ok tm htm
        obtain ⟨t', h1, h2⟩ := amGet_priority_mono s.tasks taskId task
          ({ task with
              status := Status.failed
              failedAt := some now
              lastError := some e
              updatedAt := now }) htask rfl _ t ht
        exact ⟨t', h1, h2.trans htp⟩

theorem inv_fireTimer (i : Nat) (now : Int) {s : QMState} (h : Inv s) :
    Inv (fireTimer i now s) := by
  rcases hget : s.timers.get? i with _ | tm
  · simp only [fireTimer, hget]
    exact h
  · have htmmem : tm ∈ s.timers := List.get?_mem hget
    obtain ⟨hlen, _⟩ := List.get?_eq_some.mp hget
    obtain ⟨task, htask, hp⟩ := h.timer_ok tm htmmem
    have herase : ((s.timers.eraseIdx i).length : Int) = (s.timers.length : Int) - 1 := by
      rw [List.length_eraseIdx]
      simp [hlen]
      omega
    simp only [fireTimer, hget, htask]
    constructor
    · have := h.count_eq
      simp only [pendingSum] at *
      omega
    · have := h.completed_eq
      simpa [completedDurations_retrying] using this
    · have := h.avg_eq
      simpa [completedDurations_retrying] using this
    · intro k t hk
      rcases amGet_amSet_cases hk with ⟨rfl, rfl⟩ | hold
      · have := h.store_id tm.taskId task htask
        simpa using this
      · exact h.store_id k t hold
    · intro k t hk
      rcases amGet_amSet_cases hk with ⟨rfl, rfl⟩ | hold
      · exact h.fresh tm.taskId task htask
      · exact h.fresh k t hold
    · intro q id hid
      simp only at hid
      have hid' : id ∈ s.queues.lane q ∨ (q = tm.priority ∧ id = tm.taskId) := by
        by_cases hq : q = tm.priority
        · subst hq
          rw [lane_setLane_self] at hid
          rcases List.mem_cons.mp hid with rfl | hmem
          · exact Or.inr ⟨rfl, rfl⟩
          · exact Or.inl hmem
        · rw [lane_setLane_ne _ _ _ _ hq] at hid
          exact Or.inl hid
      rcases hid' with hmem | ⟨rfl, rfl⟩
      · obtain ⟨t, ht, htp⟩ := h.lane_ok q id hmem
        obtain ⟨t', h1, h2⟩ := amGet_priority_mono s.tasks tm.taskId task
          ({ task with status := Status.pending, updatedAt := now }) htask rfl id t ht
        exact ⟨t', h1, h2.trans htp⟩
      · exact ⟨_, amGet_amSet_self _ _ _, hp⟩
    · intro tm' htm'
      simp only at htm'
      have : tm' ∈ s.timers := (List.eraseIdx_sublist s.timers i).subset htm'
      obtain ⟨t, ht, htp⟩ := h.timer_ok tm' this
      obtain ⟨t', h1, h2⟩ := amGet_priority_mono s.tasks tm.taskId task
        ({ task with status := Status.pending, updatedAt := now }) htask rfl _ t ht
      exact ⟨t', h1, h2.trans htp⟩

theorem inv_registerWorker (w : String) (now : Int) {s : QMState} (h : Inv s) :
    Inv (registerWorker w now s) := by
  constructor
  · have := h.count_eq
    simp only [registerWorker, pendingSum] at *
    exact this
  · have := h.completed_eq
    simpa [registerWorker, completedDurations_workerReg] using this
  · have := h.avg_eq
    simpa [registerWorker, completedDurations_workerReg] using this
  · exact h.store_id
  · exact h.fresh
  · exact h.lane_ok
  · exact h.timer_ok

theorem inv_updateWorkerHeartbeat (w : String) (st : WorkerStatus) (ct : Option String)
    (now : Int) {s : QMState} (h : Inv s) : Inv (updateWorkerHeartbeat w st ct now s) := by
  rcases hw : amGet s.workers w with _ | wr
  · simpa [updateWorkerHeartbeat, hw] using h
  · simp only [updateWorkerHeartbeat, hw]
    exact ⟨h.count_eq, h.completed_eq, h.avg_eq, h.store_id, h.fresh, h.lane_ok, h.timer_ok⟩

theorem inv_incrementWorkerTaskCount (w : String) {s : QMState} (h : Inv s) :
    Inv (incrementWorkerTaskCount w s) := by
  rcases hw : amGet s.workers w with _ | wr
  · simpa [incrementWorkerTaskCount, hw] using h
  · simp only [incrementWorkerTaskCount, hw]
    exact ⟨h.count_eq, h.completed_eq, h.avg_eq, h.store_id, h.fresh, h.lane_ok, h.timer_ok⟩

theorem inv_unregisterWorker (w : String) {s : QMState} (h : Inv s) :
    Inv (unregisterWorker w s) := by
  constructor
  · have := h.count_eq
    simp only [unregisterWorker, pendingSum] at *
    exact this
  · have := h.completed_eq
    simpa [unregisterWorker, completedDurations_workerUnreg] using this
  · have := h.avg_eq
    simpa [unregisterWorker, completedDurations_workerUnreg] using this
  · exact h.store_id
  · exact h.fresh
  · exact h.lane_ok
  · exact h.timer_ok

theorem inv_init : Inv initState := by
  constructor
  · simp [initState, pendingSum]
  · simp [initState, completedDurations]
  · simp [initState, completedDurations, sumQ]
  · intro k t hk
    simp [initState, amGet] at hk
  · intro k t hk
    simp [initState, amGet] at hk
  · intro p id hid
    cases p <;> simp [initState, Lanes.lane] at hid
  · intro tm htm
    simp [initState] at htm

/-- Every state reachable by a clear-free operation sequence satisfies the
inductive invariant. -/
theorem reachable_inv {s : QMState} (h : Reachable s) : Inv s := by
  induction h with
  | init => exact inv_init
  | step o hr ih =>
    cases o with
    | submit req p now => exact inv_addTask req p now ih
    | fetch w now => exact inv_getNextTaskAux w now _ ih
    | complete id r now => exact inv_completeTask id r now ih
    | fail id e now => exact inv_failTask id e now ih
    | fire i now => exact inv_fireTimer i now ih
    | register w now => exact inv_registerWorker w now ih
    | heartbeat w st ct now => exact inv_updateWorkerHeartbeat w st ct now ih
    | incrementCount w => exact inv_incrementWorkerTaskCount w ih
    | unregister w => exact inv_unregisterWorker w ih

end Preservation

section QueueDiscipline

theorem getNextTaskAux_skip (w : String) (now : Int) (p : Priority) (rest : List Priority)
    (s : QMState) (h : s.queues.lane p = []) :
    getNextTaskAux w now (p :: rest) s = getNextTaskAux w now rest s := by
  simp only [getNextTaskAux, (popBack_eq_none (s.queues.lane p)).mpr h]

theorem getNextTaskAux_hit (w : String) (now : Int) (p : Priority) (rest : List Priority)
    {s : QMState} {id : Nat} {tl : List Nat} {task : Task}
    (hrev : (s.queues.lane p).reverse = id :: tl)
    (htask : amGet s.tasks id = some task) :
    ((getNextTaskAux w now (p :: rest) s).1.map Task.id = some task.id) ∧
    ((getNextTaskAux w now (p :: rest) s).1.map Task.priority = some task.priority) ∧
    abstractLane (getNextTaskAux w now (p :: rest) s).2 p = tl ∧
    (∀ q, q ≠ p → abstractLane (getNextTaskAux w now (p :: rest) s).2 q = abstractLane s q) := by
  have hpop : popBack (s.queues.lane p) = some (id, tl.reverse) := by
    unfold popBack
    rw [hrev]
  simp only [getNextTaskAux, hpop, htask]
  refine ⟨rfl, rfl, ?_, ?_⟩
  · simp [abstractLane, lane_setLane_self]
  · intro q hq
    simp [abstractLane, lane_setLane_ne _ _ _ _ hq]

theorem getNextTaskAux_preserves_lane (w : String) (now : Int) (ps : List Priority)
    (q : Priority) : ∀ s : QMState, q ∉ ps →
    ((getNextTaskAux w now ps s).2).queues.lane q = s.queues.lane q := by
  induction ps with
  | nil => intro s _; rfl
  | cons p rest ih =>
    intro s hq
    have hqp : q ≠ p := fun h => hq (h ▸ List.mem_cons_self p rest)
    have hqrest : q ∉ rest := fun h => hq (List.mem_cons_of_mem p h)
    rcases hpop : popBack (s.queues.lane p) with _ | ⟨id, lane'⟩
    · simp only [getNextTaskAux, hpop]
      exact ih s hqrest
    · simp only [getNextTaskAux, hpop]
      rcases hget : amGet s.tasks id with _ | task
      · simp only [hget]
        rw [ih _ hqrest]
        exact lane_setLane_ne _ _ _ _ hqp
      · simp only [hget]
        exact lane_setLane_ne _ _ _ _ hqp

theorem abstractLane_empty_iff (s : QMState) (p : Priority) :
    abstractLane s p = [] ↔ s.queues.lane p = [] := by
  simp [abstractLane]

theorem abstractLane_eq_cons {s : QMState} {p : Priority} {id : Nat} {tl : List Nat}
    (h : abstractLane s p = id :: tl) : s.queues.lane p = tl.reverse ++ [id] := by
  have := congrArg List.reverse h
  simpa [abstractLane] using this

/-- C1.  On every state reachable by a clear-free operation sequence, the
code's `getNextTask` agrees with the spec-side FIFO/priority discipline
`fetchNextSpec`: it returns the oldest id of the highest-priority non-empty
lane (and that task's priority is that lane), removing exactly that oldest
entry; `addTask` enqueues the new id at the FIFO tail of its lane; and the
retry re-enqueue callback (`fireTimer`) enqueues the retried id at the FIFO
tail of its lane, i.e. behind every id pending in that lane at re-enqueue
time.  Together: high-priority pending tasks are returned strictly before
normal/low ones, within one lane tasks come back in submission order
(oldest first), and a retried task is dequeued behind all tasks that were
pending in its lane when it was re-enqueued. -/
theorem fetchNext_priority_fifo (s : QMState) (hs : Reachable s) (w : String) (now : Int) :
    (fetchNextSpec s = none → getNextTask w now s = (none, s)) ∧
    (∀ p id, fetchNextSpec s = some (p, id) →
        (getNextTask w now s).1.map Task.id = some id ∧
        (getNextTask w now s).1.map Task.priority = some p ∧
        abstractLane (getNextTask w now s).2 p = (abstractLane s p).tail ∧
        (∀ q, q ≠ p → abstractLane (getNextTask w now s).2 q = abstractLane s q)) ∧
    (∀ req q now2,
        abstractLane ((addTask req q now2 s).2) q = abstractLane s q ++ [s.nextId] ∧
        (∀ r, r ≠ q → abstractLane ((addTask req q now2 s).2) r = abstractLane s r)) ∧
    (∀ i now2 tm, s.timers.get? i = some tm →
        abstractLane (fireTimer i now2 s) tm.priority
          = abstractLane s tm.priority ++ [tm.taskId] ∧
        (∀ r, r ≠ tm.priority → abstractLane (fireTimer i now2 s) r = abstractLane s r)) := by
  have hinv := reachable_inv hs
  refine ⟨?_, ?_, ?_, ?_⟩
  · -- all lanes empty: the scan returns null and leaves the state alone
    intro hspec
    rcases hh : abstractLane s .high with _ | ⟨hid, hrest⟩
    · rcases hn : abstractLane s .normal with _ | ⟨nid, nrest⟩
      · rcases hl : abstractLane s .low with _ | ⟨lid, lrest⟩
        · simp only [getNextTask]
          rw [getNextTaskAux_skip w now _ _ s ((abstractLane_empty_iff s _).mp hh),
            getNextTaskAux_skip w now _ _ s ((abstractLane_empty_iff s _).mp hn),
            getNextTaskAux_skip w now _ _ s ((abstractLane_empty_iff s _).mp hl)]
          rfl
        · simp [fetchNextSpec, hh, hn, hl] at hspec
      · simp [fetchNextSpec, hh, hn] at hspec
    · simp [fetchNextSpec, hh] at hspec
  · intro p id hspec
    rcases hh : abstractLane s .high with _ | ⟨hid, hrest⟩
    · rcases hn : abstractLane s .normal with _ | ⟨nid, nrest⟩
      · rcases hl : abstractLane s .low with _ | ⟨lid, lrest⟩
        · simp [fetchNextSpec, hh, hn, hl] at hspec
        · -- low lane is the first non-empty one
          simp only [fetchNextSpec, hh, hn, hl, Option.some.injEq, Prod.mk.injEq] at hspec
          obtain ⟨rfl, rfl⟩ := hspec
          have hmem : lid ∈ s.queues.lane .low := by
            rw [abstractLane_eq_cons hl]
            simp
          obtain ⟨task, htask, hp⟩ := hinv.lane_ok _ lid hmem
          have hidq : task.id = lid := hinv.store_id _ _ htask
          have hhit := getNextTaskAux_hit w now .low [] (s := s) hl htask
          simp only [getNextTask]
          rw [getNextTaskAux_skip w now _ _ s ((abstractLane_empty_iff s _).mp hh),
            getNextTaskAux_skip w now _ _ s ((abstractLane_empty_iff s _).mp hn)]
          refine ⟨by rw [hhit.1, hidq], by rw [hhit.2.1, hp], ?_, hhit.2.2.2⟩
          rw [hhit.2.2.1, hl, List.tail_cons]
      · -- normal lane is the first non-empty one
        simp only [fetchNextSpec, hh, hn, Option.some.injEq, Prod.mk.injEq] at hspec
        obtain ⟨rfl, rfl⟩ := hspec
        have hmem : nid ∈ s.queues.lane .normal := by
          rw [abstractLane_eq_cons hn]
          simp
        obtain ⟨task, htask, hp⟩ := hinv.lane_ok _ nid hmem
        have hidq : task.id = nid := hinv.store_id _ _ htask
        have hhit := getNextTaskAux_hit w now .normal [.low] (s := s) hn htask
        simp only [getNextTask]
        rw [getNextTaskAux_skip w now _ _ s ((abstractLane_empty_iff s _).mp hh)]
        refine ⟨by rw [hhit.1, hidq], by rw [hhit.2.1, hp], ?_, hhit.2.2.2⟩
        rw [hhit.2.2.1, hn, List.tail_cons]
    · -- high lane is non-empty
      simp only [fetchNextSpec, hh, Option.some.injEq, Prod.mk.injEq] at hspec
      obtain ⟨rfl, rfl⟩ := hspec
      have hmem : hid ∈ s.queues.lane .high := by
        rw [abstractLane_eq_cons hh]
        simp
      obtain ⟨task, htask, hp⟩ := hinv.lane_ok _ hid hmem
      have hidq : task.id = hid := hinv.store_id _ _ htask
      have hhit := getNextTaskAux_hit w now .high [.normal, .low] (s := s) hh htask
      simp only [getNextTask]
      refine ⟨by rw [hhit.1, hidq], by rw [hhit.2.1, hp], ?_, hhit.2.2.2⟩
      rw [hhit.2.2.1, hh, List.tail_cons]
  · intro req q now2
    constructor
    · simp [addTask, abstractLane, lane_setLane_self]
    · intro r hr
      simp [addTask, abstractLane, lane_setLane_ne _ _ _ _ hr]
  · intro i now2 tm hget
    constructor
    · simp only [fireTimer, hget]
      simp [abstractLane, lane_setLane_self]
    · intro r hr
      simp only [fireTimer, hget]
      simp [abstractLane, lane_setLane_ne _ _ _ _ hr]

end QueueDiscipline

/-- Witness for C1: on the reachable one-task state `s1n`, the spec-side scan
names task 0 in the normal lane and `getNextTask` returns exactly that task;
a fresh high-priority submission is enqueued at the tail of the high lane. -/
theorem fetchNext_priority_fifo_witness :
    fetchNextSpec s1n = some (Priority.normal, 0) ∧
    (getNextTask "w" 20 s1n).1.map Task.id = some 0 ∧
    abstractLane ((addTask reqT Priority.high 40 s1n).2) Priority.high
      = abstractLane s1n Priority.high ++ [s1n.nextId] := by
  have hre : Reachable s1n :=
    Reachable.step (Op.submit reqT Priority.normal 10) Reachable.init
  have hmain := fetchNext_priority_fifo s1n hre "w" 20
  exact ⟨by decide, (hmain.2.1 Priority.normal 0 (by decide)).1,
    (hmain.2.2.1 reqT Priority.high 40).1⟩

/-- C2 counterexample: after submit, fetch and one fail, task 0 is in its
retry-delay window with status `retrying`, and
`pendingTasks + processingTasks + completedTasks + failedTasks` (= 0)
differs from `tasksCreated` (= 1). -/
theorem stats_identity_counterexample :
    (amGet s3fail.tasks 0).map Task.status = some Status.retrying ∧
    pendingSum s3fail.stats ≠ s3fail.stats.tasksCreated := by
  constructor <;> decide

/-- C2 (amended): at every point of a clear-free operation sequence,
`pendingTasks + processingTasks + completedTasks + failedTasks` plus the
number of tasks waiting in their retry-delay window (pending retry timers)
equals `tasksCreated`; in particular the claimed identity itself holds
exactly at the points where no retry timer is pending. -/
theorem stats_identity_amended (s : QMState) (hs : Reachable s) :
    pendingSum s.stats + (s.timers.length : Int) = s.stats.tasksCreated ∧
    (s.timers = [] → pendingSum s.stats = s.stats.tasksCreated) := by
  have h := (reachable_inv hs).count_eq
  refine ⟨h, fun ht => ?_⟩
  rw [ht] at h
  simpa using h

/-- Witness for C2 (amended), at the retry-window state `s3fail`. -/
theorem stats_identity_amended_witness :
    pendingSum s3fail.stats + (s3fail.timers.length : Int) = s3fail.stats.tasksCreated := by
  have hre : Reachable s3fail :=
    Reachable.step (Op.fail 0 "boom" 30)
      (Reachable.step (Op.fetch "w" 20)
        (Reachable.step (Op.submit reqT Priority.normal 10) Reachable.init))
  exact (stats_identity_amended s3fail hre).1

/-- C3: when `failTask` is called on a stored task whose retry count is `k`
(which is the k-th fail of that task, counting from 0, since only the retry
branch ever increments `retries`), then: if `k < maxRetries` the scheduled
re-enqueue delay is `configWorkerRetryDelay * 2 ^ k`, the task becomes
`retrying` with `retries = k + 1`; and the task is marked permanently
`failed` (no timer scheduled) exactly when `k` has reached `maxRetries`. -/
theorem failTask_backoff (s : QMState) (taskId : Nat) (k : Nat) (e : String) (now : Int)
    (task : Task) (htask : amGet s.tasks taskId = some task) (hk : task.retries = k) :
    (k < task.maxRetries →
        ((failTask taskId e now s).2).timers
          = s.timers ++
            [{ taskId := taskId
               priority := task.priority
               delay := configWorkerRetryDelay * 2 ^ k
               firesAt := now + configWorkerRetryDelay * 2 ^ k }] ∧
        (amGet ((failTask taskId e now s).2).tasks taskId).map Task.status
          = some Status.retrying ∧
        (amGet ((failTask taskId e now s).2).tasks taskId).map Task.retries = some (k + 1) ∧
        (failTask taskId e now s).1 = true) ∧
    (task.maxRetries ≤ k →
        ((failTask taskId e now s).2).timers = s.timers ∧
        (amGet ((failTask taskId e now s).2).tasks taskId).map Task.status
          = some Status.failed ∧
        (failTask taskId e now s).1 = true) := by
  subst hk
  constructor
  · intro hlt
    refine ⟨?_, ?_, ?_, ?_⟩
    · simp [failTask, htask, if_pos hlt]
    · simp only [failTask, htask, if_pos hlt]
      rw [amGet_amSet_self]
      rfl
    · simp only [failTask, htask, if_pos hlt]
      rw [amGet_amSet_self]
      rfl
    · simp [failTask, htask, if_pos hlt]
  · intro hge
    have hnlt : ¬ (task.retries < task.maxRetries) := Nat.not_lt.mpr hge
    refine ⟨?_, ?_, ?_⟩
    · simp [failTask, htask, if_neg hnlt]
    · simp only [failTask, htask, if_neg hnlt]
      rw [amGet_amSet_self]
      rfl
    · simp [failTask, htask, if_neg hnlt]

/-- Witness for C3: failing the fresh task 0 (retries 0, maxRetries 3)
schedules a `1000 * 2 ^ 0` backoff timer and marks it `retrying`. -/
theorem failTask_backoff_witness :
    (0 < task0.maxRetries) ∧
    ((failTask 0 "x" 50 s1n).2).timers
      = s1n.timers ++
        [{ taskId := 0
           priority := task0.priority
           delay := configWorkerRetryDelay * 2 ^ 0
           firesAt := 50 + configWorkerRetryDelay * 2 ^ 0 }] ∧
    (amGet ((failTask 0 "x" 50 s1n).2).tasks 0).map Task.status = some Status.retrying := by
  have h := failTask_backoff s1n 0 0 "x" 50 task0 rfl rfl
  exact ⟨by decide, (h.1 (by decide)).1, (h.1 (by decide)).2.1⟩

/-- C4: on every state reachable by a clear-free operation sequence, the
`completedTasks` counter equals the number of completions performed, and
(once at least one task has completed) the incrementally maintained
`avgProcessingTime` equals the arithmetic mean of the processing durations
`d1..dn` reported by the completions, exactly (the float arithmetic of the
source is modelled by exact rationals, so "within floating-point tolerance"
holds with zero error in the model). -/
theorem avg_is_mean (s : QMState) (hs : Reachable s) :
    s.stats.completedTasks = ((completedDurations s.events).length : Int) ∧
    (completedDurations s.events ≠ [] →
      s.stats.avgProcessingTime
        = sumQ (completedDurations s.events) / ((completedDurations s.events).length : ℚ)) := by
  have hinv := reachable_inv hs
  refine ⟨hinv.completed_eq, fun hne => ?_⟩
  have hlen0 : (completedDurations s.events).length ≠ 0 := by
    simpa [List.length_eq_zero] using hne
  have hlen : ((completedDurations s.events).length : ℚ) ≠ 0 := Nat.cast_ne_zero.mpr hlen0
  rw [eq_div_iff hlen]
  exact hinv.avg_eq

/-- Witness for C4, at the submit/fetch/complete trace state `s3comp`
(one completion of duration 10). -/
theorem avg_is_mean_witness :
    completedDurations s3comp.events = [10] ∧
    s3comp.stats.avgProcessingTime
      = sumQ (completedDurations s3comp.events)
          / ((completedDurations s3comp.events).length : ℚ) := by
  have hre : Reachable s3comp :=
    Reachable.step (Op.complete 0 "ok" 30)
      (Reachable.step (Op.fetch "w" 20)
        (Reachable.step (Op.submit reqT Priority.normal 10) Reachable.init))
  exact ⟨by decide, (avg_is_mean s3comp hre).2 (by decide)⟩

/-- C5 counterexample: registering the same worker id twice leaves
`stats.activeWorkers = 2` but a one-entry worker map; `clearAll` then sets
the reported active-worker count to `workers.size = 1`, so the count after
`clearAll` does NOT equal its value before. -/
theorem clearAll_activeWorkers_counterexample :
    sDoubleReg.stats.activeWorkers = 2 ∧
    (clearAll sDoubleReg).stats.activeWorkers = 1 ∧
    (clearAll sDoubleReg).stats.activeWorkers ≠ sDoubleReg.stats.activeWorkers := by
  refine ⟨by decide, by decide, by decide⟩

/-- C5 (amended): `clearAll` zeroes the created/pending/processing/completed/
failed/retried counters, the running average, all three lane lengths (both
the live lanes and the lengths reported by `getQueueStats`) and the in-flight
count, and empties the task and result stores, while the reported
active-worker count after `clearAll` equals the number of currently
registered workers (the size of the worker map) — which coincides with the
pre-clear counter only when that counter is in sync with the map. -/
theorem clearAll_resets (s : QMState) :
    (clearAll s).stats.tasksCreated = 0 ∧
    (clearAll s).stats.pendingTasks = 0 ∧
    (clearAll s).stats.processingTasks = 0 ∧
    (clearAll s).stats.completedTasks = 0 ∧
    (clearAll s).stats.failedTasks = 0 ∧
    (clearAll s).stats.retriedTasks = 0 ∧
    (clearAll s).stats.avgProcessingTime = 0 ∧
    (clearAll s).queues.high = [] ∧
    (clearAll s).queues.normal = [] ∧
    (clearAll s).queues.low = [] ∧
    (getQueueStats (clearAll s)).queueLengthsHigh = 0 ∧
    (getQueueStats (clearAll s)).queueLengthsNormal = 0 ∧
    (getQueueStats (clearAll s)).queueLengthsLow = 0 ∧
    (getQueueStats (clearAll s)).processingCount = 0 ∧
    (clearAll s).processing = [] ∧
    (clearAll s).tasks = [] ∧
    (clearAll s).results = [] ∧
    (clearAll s).stats.activeWorkers = (s.workers.length : Int) ∧
    (clearAll s).workers = s.workers := by
  refine ⟨rfl, rfl, rfl, rfl, rfl, rfl, rfl, rfl, rfl, rfl, rfl, rfl, rfl, rfl, rfl, rfl,
    rfl, rfl, rfl⟩

/-- C6: `completeTask` and `failTask` on a task id absent from the task
store return `false` ("not found") and leave the entire state — every
counter, every lane, the in-flight list, and the task and result stores —
unchanged. -/
theorem unknown_id_noop (s : QMState) (taskId : Nat) (r e : String) (now : Int)
    (h : amGet s.tasks taskId = none) :
    completeTask taskId r now s = (false, s) ∧ failTask taskId e now s = (false, s) := by
  constructor
  · simp only [completeTask, h]
  · simp only [failTask, h]

/-- Witness for C6: id 0 is unknown in the constructor state. -/
theorem unknown_id_noop_witness :
    amGet initState.tasks 0 = none ∧
    completeTask 0 "r" 7 initState = (false, initState) ∧
    failTask 0 "e" 7 initState = (false, initState) :=
  ⟨rfl, (unknown_id_noop initState 0 "r" "e" 7 rfl).1,
    (unknown_id_noop initState 0 "r" "e" 7 rfl).2⟩

/-- C7: `clearAll` never cancels a scheduled retry timer (for every state it
leaves the pending-timer list untouched), and on the concrete trace
submit/fetch/fail/clearAll/timer-fires the stale callback re-inserts task 0
into the already-cleared normal lane even though the task store is empty. -/
theorem retry_timer_survives_clearAll :
    (∀ s : QMState, (clearAll s).timers = s.timers) ∧
    s3fail.timers.length = 1 ∧
    s4clear.timers = s3fail.timers ∧
    s4clear.queues.normal = [] ∧
    s4clear.tasks = [] ∧
    s5stale.queues.normal = [0] ∧
    amGet s5stale.tasks 0 = none := by
  exact ⟨fun s => rfl, by decide, rfl, by decide, by decide, by decide, by decide⟩

/-- C8: whenever the scan examines a non-empty lane `p` whose oldest entry
`x` (the one `pop` removes) has no record in the task store, `x` is removed
from that lane and permanently dropped, and the very same call continues
with the remaining lower-priority lanes without examining the remaining ids
of lane `p` (first conjunct, for the scan at any lane); instantiated to the
actual `getNextTask` scan for each of the three lanes: a stale oldest id in
the high lane sends the call on to `[normal, low]`, in the normal lane
(reached when high is empty — the canonical post-`clearAll` stale state) on
to `[low]`, and in the low lane the call returns "no task"; the stale id is
gone from the lane of the resulting state in every case. -/
theorem stale_id_dropped (s : QMState) (w : String) (now : Int) (l : List Nat) (x : Nat)
    (hmiss : amGet s.tasks x = none) :
    (∀ p rest, s.queues.lane p = l ++ [x] →
        getNextTaskAux w now (p :: rest) s
          = getNextTaskAux w now rest { s with queues := s.queues.setLane p l } ∧
        (p ∉ rest →
          ((getNextTaskAux w now (p :: rest) s).2).queues.lane p = l)) ∧
    (s.queues.high = l ++ [x] →
        getNextTask w now s
          = getNextTaskAux w now [Priority.normal, Priority.low]
              { s with queues := s.queues.setLane Priority.high l } ∧
        ((getNextTask w now s).2).queues.lane Priority.high = l) ∧
    (s.queues.high = [] → s.queues.normal = l ++ [x] →
        getNextTask w now s
          = getNextTaskAux w now [Priority.low]
              { s with queues := s.queues.setLane Priority.normal l } ∧
        ((getNextTask w now s).2).queues.lane Priority.normal = l) ∧
    (s.queues.high = [] → s.queues.normal = [] → s.queues.low = l ++ [x] →
        getNextTask w now s = (none, { s with queues := s.queues.setLane Priority.low l }) ∧
        ((getNextTask w now s).2).queues.lane Priority.low = l) := by
  have hstep : ∀ p rest, s.queues.lane p = l ++ [x] →
      getNextTaskAux w now (p :: rest) s
        = getNextTaskAux w now rest { s with queues := s.queues.setLane p l } := by
    intro p rest hlane
    have hpop : popBack (s.queues.lane p) = some (x, l) := by
      rw [hlane, popBack_append]
    simp only [getNextTaskAux, hpop, hmiss]
  have hgen : ∀ p rest, s.queues.lane p = l ++ [x] →
      getNextTaskAux w now (p :: rest) s
        = getNextTaskAux w now rest { s with queues := s.queues.setLane p l } ∧
      (p ∉ rest →
        ((getNextTaskAux w now (p :: rest) s).2).queues.lane p = l) := by
    intro p rest hlane
    refine ⟨hstep p rest hlane, fun hnotin => ?_⟩
    rw [hstep p rest hlane,
      getNextTaskAux_preserves_lane w now rest p _ hnotin, lane_setLane_self]
  refine ⟨hgen, ?_, ?_, ?_⟩
  · intro hlane
    exact hgen Priority.high [Priority.normal, Priority.low] hlane |>.imp id
      (fun h => h (by simp))
  · intro hhigh hlane
    have hskip : getNextTask w now s
        = getNextTaskAux w now [Priority.normal, Priority.low] s :=
      getNextTaskAux_skip w now Priority.high [Priority.normal, Priority.low] s hhigh
    have h := hgen Priority.normal [Priority.low] hlane
    rw [hskip]
    exact ⟨h.1, h.2 (by simp)⟩
  · intro hhigh hnormal hlane
    have hskip : getNextTask w now s = getNextTaskAux w now [Priority.low] s := by
      rw [getNextTask,
        getNextTaskAux_skip w now Priority.high [Priority.normal, Priority.low] s hhigh,
        getNextTaskAux_skip w now Priority.normal [Priority.low] s hnormal]
    have h := hgen Priority.low [] hlane
    rw [hskip]
    exact ⟨h.1, h.2 (by simp)⟩

/-- Witness for C8, at the canonical post-`clearAll` stale state `s5stale`
of the C7 trace: the stale id 0 sits in the *normal* lane (`normal = [0]`,
high empty, empty task store), and the fetch drops it and leaves the
normal lane empty. -/
theorem stale_id_dropped_witness :
    s5stale.queues.high = [] ∧
    s5stale.queues.normal = [] ++ [0] ∧
    amGet s5stale.tasks 0 = none ∧
    ((getNextTask "w" 99 s5stale).2).queues.lane Priority.normal = [] := by
  have h := stale_id_dropped s5stale "w" 99 [] 0 (by decide)
  exact ⟨by decide, by decide, by decide, (h.2.2.1 (by decide) (by decide)).2⟩

/-- C9: `unregisterWorker` decrements the active-worker counter and emits a
`worker:unregistered` event unconditionally, for every state and id — in
particular for an id that was never registered — and from the constructor
state one such call drives the counter to −1. -/
theorem unregister_unconditional :
    (∀ (s : QMState) (wid : String),
        (unregisterWorker wid s).stats.activeWorkers = s.stats.activeWorkers - 1 ∧
        (unregisterWorker wid s).events
          = s.events ++ [QueueEvent.workerUnregistered wid]) ∧
    amGet initState.workers "ghost" = none ∧
    (unregisterWorker "ghost" initState).stats.activeWorkers = -1 := by
  exact ⟨fun s wid => ⟨rfl, rfl⟩, rfl, by decide⟩

/-- C10: `addTask` applies the configured default max-retries (3) via the
falsy `||`, so a request that explicitly asks for `maxRetries = 0` gets a
task with `maxRetries = 3`, exactly as a request that omits the field —
there is no way to create a never-retrying task this way. -/
theorem maxRetries_falsy_default (s : QMState) (req : TaskCreateRequest) (p : Priority)
    (now : Int) :
    ((addTask { req with maxRetries := some 0 } p now s).1).maxRetries
      = configWorkerMaxRetries ∧
    ((addTask { req with maxRetries := none } p now s).1).maxRetries
      = configWorkerMaxRetries ∧
    configWorkerMaxRetries = 3 := by
  refine ⟨?_, ?_, rfl⟩ <;> simp [addTask, jsOrNat]

end DTQ
